import Mathlib

/-!
Verification development for the BIP-158 test-vector generator
(src/bip-0158/gentestvectors.go).

The Go source is shallowly embedded below.  Byte strings are lists of
naturals, hashes are byte strings, and the external collaborators (the
btcutil gcs/builder library, the chainhash digests, the RPC block source and
the reference server) are modelled as explicit function parameters collected
in an `Env`, or as definitions marked `Modelled from the spec:` when their
code is not part of this repository.
-/

/-- A byte string: the universal currency of the filter pipeline. -/
abbrev Bytes := List Nat

/-- An outpoint reference carried by a transaction input
(wire.OutPoint: previous transaction id plus output index). -/
structure OutPoint where
  hash : Bytes
  index : Nat
deriving DecidableEq, Repr

/-- A transaction input (wire.TxIn): previous outpoint, optional signature
script (Go nil is `none`) and witness stack. -/
structure TxIn where
  previousOutPoint : OutPoint
  signatureScript : Option Bytes
  witness : List Bytes
deriving DecidableEq, Repr

/-- A transaction output (wire.TxOut): its locking script. -/
structure TxOut where
  pkScript : Bytes
deriving DecidableEq, Repr

/-- A transaction (wire.MsgTx).  `txid` models the externally computed
digest tx.TxHash() of the serialized transaction. -/
structure MsgTx where
  txid : Bytes
  txIn : List TxIn
  txOut : List TxOut
deriving DecidableEq, Repr

/-- A block (wire.MsgBlock).  `blockHash` models block.BlockHash(). -/
structure MsgBlock where
  blockHash : Bytes
  transactions : List MsgTx
deriving DecidableEq, Repr

/-- Modelled from the spec: serialization of a spent outpoint as appended by
the external builder.AddOutPoint — the 32-byte previous transaction id
followed by the 4-byte little-endian output index. -/
def serializeOutPoint (o : OutPoint) : Bytes :=
  o.hash ++ [o.index % 256, o.index / 256 % 256,
             o.index / 65536 % 256, o.index / 16777216 % 256]

/-- Modelled from the spec: parsing a script as a sequence of push operations
(the external txscript.PushedData).  Opcodes 0x01-0x4b push that many
following bytes; 0x4c/0x4d/0x4e read a 1/2/4-byte little-endian length and
push that many bytes; every other opcode pushes no data; a script that runs
out of bytes mid-push fails to parse (`none`).  The fuel argument is the
number of remaining script bytes, which bounds the recursion. -/
def pushedDataAux : Nat → Bytes → Option (List Bytes)
  | _, [] => some []
  | 0, _ :: _ => none
  | fuel + 1, op :: rest =>
    if 1 ≤ op ∧ op ≤ 75 then
      if rest.length < op then none
      else (pushedDataAux fuel (rest.drop op)).map (fun tl => rest.take op :: tl)
    else if op = 76 then
      match rest with
      | [] => none
      | n :: rest2 =>
        if rest2.length < n then none
        else (pushedDataAux fuel (rest2.drop n)).map (fun tl => rest2.take n :: tl)
    else if op = 77 then
      match rest with
      | n0 :: n1 :: rest2 =>
        let n := n0 + 256 * n1
        if rest2.length < n then none
        else (pushedDataAux fuel (rest2.drop n)).map (fun tl => rest2.take n :: tl)
      | _ => none
    else if op = 78 then
      match rest with
      | n0 :: n1 :: n2 :: n3 :: rest2 =>
        let n := n0 + 256 * n1 + 65536 * n2 + 16777216 * n3
        if rest2.length < n then none
        else (pushedDataAux fuel (rest2.drop n)).map (fun tl => rest2.take n :: tl)
      | _ => none
    else pushedDataAux fuel rest

/-- Modelled from the spec: the individually-pushed data items of a script,
`none` when the script does not parse cleanly. -/
def pushedData (s : Bytes) : Option (List Bytes) :=
  pushedDataAux s.length s

/-- A GCS filter value (gcs.Filter): the element count and the Golomb-coded
bit stream packed into bytes.  `emptyFilter` is the Go zero value. -/
structure GCSFilter where
  n : Nat
  filterData : Bytes
deriving DecidableEq, Repr

/-- The explicit empty filter the driver substitutes for a nil build result. -/
def emptyFilter : GCSFilter := { n := 0, filterData := [] }

/-- Modelled from the spec: Bitcoin CompactSize encoding of the element
count prefixed to the filter bytes (wire.WriteVarInt in the external
library). -/
def varInt (n : Nat) : Bytes :=
  if n < 253 then [n]
  else if n < 65536 then [253, n % 256, n / 256 % 256]
  else if n < 4294967296 then
    [254, n % 256, n / 256 % 256, n / 65536 % 256, n / 16777216 % 256]
  else
    [255, n % 256, n / 256 % 256, n / 65536 % 256, n / 16777216 % 256,
     n / 4294967296 % 256, n / 1099511627776 % 256,
     n / 281474976710656 % 256, n / 72057594037927936 % 256]

/-- Unary coding of a Golomb quotient: q ones followed by a zero bit. -/
def unaryBits : Nat → List Bool
  | 0 => [false]
  | q + 1 => true :: unaryBits q

/-- The low `width` bits of `v`, most significant first. -/
def fixedBits (width v : Nat) : List Bool :=
  (List.range width).map (fun k => v / 2 ^ (width - 1 - k) % 2 = 1)

/-- Modelled from the spec: Golomb-Rice coding of one delta with Rice
parameter p — the quotient in unary, then p remainder bits. -/
def golombRiceBits (p delta : Nat) : List Bool :=
  unaryBits (delta / 2 ^ p) ++ fixedBits p (delta % 2 ^ p)

/-- Delta-encode a sorted value list against a running predecessor. -/
def deltasFrom : Nat → List Nat → List Nat
  | _, [] => []
  | prev, v :: vs => (v - prev) :: deltasFrom v vs

/-- A byte from up to eight bits (most significant first), right-padded
with zero bits as the final byte of a bit stream is. -/
def byteOfBits (bs : List Bool) : Nat :=
  (bs ++ List.replicate (8 - bs.length) false).foldl
    (fun acc b => 2 * acc + (if b then 1 else 0)) 0

/-- Pack a bit stream into bytes, eight bits at a time. -/
def bitsToBytes (bits : List Bool) : Bytes :=
  if h : bits = [] then []
  else byteOfBits (bits.take 8) :: bitsToBytes (bits.drop 8)
termination_by bits.length
decreasing_by
  cases bits with
  | nil => exact absurd rfl h
  | cons b bs => simp [List.length_drop]; omega

/-- Modelled from the spec: the external GCS encoder (gcs.BuildGCSFilter via
builder.Build): duplicate byte strings collapse to one entry, each distinct
element is hashed into the range 0 ≤ v < N·M with M = 2^P, the values are
sorted, delta-encoded and Golomb-Rice coded; an empty element set yields a
nil filter (`none`), which is how the driver observes it. -/
def buildGCSFilter (hashFn : Bytes → Bytes → Nat) (key : Bytes) (p : Nat)
    (data : List Bytes) : Option GCSFilter :=
  if data = [] then none
  else
    let distinct := data.dedup
    let n := distinct.length
    let values := distinct.map (fun e => hashFn key e % (n * 2 ^ p))
    let sorted := List.insertionSort (fun a b => a ≤ b) values
    some { n := n,
           filterData := bitsToBytes ((deltasFrom 0 sorted).flatMap (golombRiceBits p)) }

/-- Modelled from the spec: gcs.Filter.NBytes — the CompactSize element
count followed by the coded bit stream; writing to an in-memory buffer
cannot fail, so the Go error return is always nil and the function is
total. -/
def nBytes (f : GCSFilter) : Bytes :=
  varInt f.n ++ f.filterData

/-- Modelled from the spec: the external builder derives a 128-bit SipHash
key (gcs.KeySize = 16 bytes) from the block hash; Key() fails when the key
material cannot be derived from the seed. -/
def deriveKey (h : Bytes) : Option Bytes :=
  if h.length < 16 then none else some (h.take 16)

/-- Per-transaction contribution to the basic element set, exactly as the
loop body of buildBasicFilter accumulates it (src lines 296-316): the
transaction hash (AddHash), for a non-coinbase transaction the serialized
previous outpoint of every input (AddOutPoint), and for every output the raw
locking script as a single entry (AddEntry(txOut.PkScript)). -/
def basicTxElements (coinbase : Bool) (tx : MsgTx) : List Bytes :=
  [tx.txid] ++
  (if coinbase then []
   else tx.txIn.map (fun ti => serializeOutPoint ti.previousOutPoint)) ++
  tx.txOut.map (fun o => o.pkScript)

/-- Embedding of the element accumulation in buildBasicFilter: the loop
ranges over the indexed transactions and skips input processing for index
0 (the coinbase). -/
def basicElements (block : MsgBlock) : List Bytes :=
  block.transactions.enum.flatMap (fun q => basicTxElements (q.1 == 0) q.2)

/-- Per-input contribution to the extended element set (src lines 348-356):
the data pushes of the signature script when it is non-nil (AddScript, with
a parse failure contributing no elements), and the witness stack items when
the witness is non-empty (AddWitness). -/
def extInputElements (ti : TxIn) : List Bytes :=
  (match ti.signatureScript with
   | some s => (pushedData s).getD []
   | none => []) ++
  (if ti.witness = [] then [] else ti.witness)

/-- Per-transaction contribution to the extended element set: nothing for
the coinbase, otherwise the contribution of every input. -/
def extTxElements (coinbase : Bool) (tx : MsgTx) : List Bytes :=
  if coinbase then [] else tx.txIn.flatMap extInputElements

/-- Embedding of the element accumulation in buildExtFilter (src lines
342-358). -/
def extElements (block : MsgBlock) : List Bytes :=
  block.transactions.enum.flatMap (fun q => extTxElements (q.1 == 0) q.2)

/-- Modelled from the spec: the basic element set exactly as the spec (and
the code's own comments) describe it — identical to `basicElements` except
that every output contributes each individually-pushed data item found by
parsing its locking script, an unparseable script contributing no
elements. -/
def specBasicTxElements (coinbase : Bool) (tx : MsgTx) : List Bytes :=
  [tx.txid] ++
  (if coinbase then []
   else tx.txIn.map (fun ti => serializeOutPoint ti.previousOutPoint)) ++
  tx.txOut.flatMap (fun o => (pushedData o.pkScript).getD [])

/-- Modelled from the spec: the block-level basic element set the spec
describes. -/
def specBasicElements (block : MsgBlock) : List Bytes :=
  block.transactions.enum.flatMap (fun q => specBasicTxElements (q.1 == 0) q.2)

/-- One entry of the interesting-heights table (testBlockCase, src lines
41-44). -/
structure TestBlockCase where
  height : Nat
  comment : String
deriving DecidableEq, Repr

/-- The interesting heights of the driver (src lines 30-38); the source
requires new entries to be added in sorted order. -/
def testBlockHeights : List TestBlockCase :=
  [{ height := 0, comment := "Genesis block" },
   { height := 1, comment := "Extended filter is empty" },
   { height := 2, comment := "" },
   { height := 3, comment := "" },
   { height := 926485,
     comment := "Duplicate pushdata 913bcc2be49cb534c20474c4dee1e9c4c317e7eb" },
   { height := 987876, comment := "Coinbase tx has unparseable output script" },
   { height := 1263442, comment := "Includes witness data" }]

/-- One emitted test-vector row (src lines 250-261); hex/display encodings
are glue, so the fields carry the raw byte strings. -/
structure Row where
  height : Nat
  blockHash : Bytes
  blockData : Bytes
  prevBasicHeader : Bytes
  prevExtHeader : Bytes
  basicFilterBytes : Bytes
  extFilterBytes : Bytes
  basicHeader : Bytes
  extHeader : Bytes
  note : String
deriving DecidableEq, Repr

/-- The external collaborators of the driver: the block source, the block
serializer, the hash primitives underlying the external gcs/chainhash
libraries, the distinguished default P (builder.DefaultP), and the reference
server consulted for cross-validation. -/
structure Env where
  chain : Nat → MsgBlock
  serializeBlock : MsgBlock → Bytes
  hashFn : Bytes → Bytes → Nat
  dHash : Bytes → Bytes
  defaultP : Nat
  refFilterBasic : Bytes → Bytes
  refFilterExt : Bytes → Bytes
  refHeaderBasic : Bytes → Bytes
  refHeaderExt : Bytes → Bytes

/-- Embedding of buildBasicFilter (src lines 282-319): derive the key from
the block hash — a Key() failure bubbles up as an error — then encode the
accumulated basic elements. -/
def buildBasicFilter (env : Env) (block : MsgBlock) (p : Nat) :
    Except String (Option GCSFilter) :=
  match deriveKey block.blockHash with
  | none => .error "couldn't derive key"
  | some key => .ok (buildGCSFilter env.hashFn key p (basicElements block))

/-- Embedding of buildExtFilter (src lines 328-361). -/
def buildExtFilter (env : Env) (block : MsgBlock) (p : Nat) :
    Except String (Option GCSFilter) :=
  match deriveKey block.blockHash with
  | none => .error "couldn't derive key"
  | some key => .ok (buildGCSFilter env.hashFn key p (extElements block))

/-- Modelled from the spec: the external builder.GetFilterHash — the double
hash of the filter's serialized bytes.  The driver passes the possibly-nil
result of Build straight in; a nil filter's bytes are the canonical empty
encoding (spec §9 treats both empty representations as canonical). -/
def getFilterHash (env : Env) (f : Option GCSFilter) : Bytes :=
  env.dHash (nBytes (f.getD emptyFilter))

/-- Modelled from the spec: builder.MakeHeaderForFilter — the next chain
header doubleHash(filterHash(filter) plus-plus prevHeader). -/
def makeHeaderForFilter (env : Env) (f : Option GCSFilter) (prev : Bytes) : Bytes :=
  env.dHash (getFilterHash env f ++ prev)

/-- The driver's mutable state (src lines 95-97): the per-P output files and
the two per-P previous-header arrays, all allocated with 33 slots of which
only 1..32 are ever assigned; arrays are modelled as index functions. -/
@[ext]
structure DriverState where
  files : Nat → List Row
  prevBasicHeaders : Nat → Bytes
  prevExtHeaders : Nat → Bytes

/-- The zero value of chainhash.Hash: 32 zero bytes. -/
def zeroHash : Bytes := List.replicate 32 0

/-- The state right after initialization: empty files and all-zero previous
headers (make([]chainhash.Hash, 33) zero-fills). -/
def initState : DriverState :=
  { files := fun _ => [],
    prevBasicHeaders := fun _ => zeroHash,
    prevExtHeaders := fun _ => zeroHash }

/-- Abort reasons of the run: a filter-build error, or one of the four
cross-validation mismatches, each remembering the height and P involved. -/
inductive Abort where
  | buildError (height p : Nat)
  | basicFilterMismatch (height p : Nat)
  | extFilterMismatch (height p : Nat)
  | basicHeaderMismatch (height p : Nat)
  | extHeaderMismatch (height p : Nat)
deriving DecidableEq, Repr

/-- The height at which an abort happened. -/
def abortHeight : Abort → Nat
  | .buildError h _ => h
  | .basicFilterMismatch h _ => h
  | .extFilterMismatch h _ => h
  | .basicHeaderMismatch h _ => h
  | .extHeaderMismatch h _ => h

/-- The row the driver writes for one (height, P) observation (src lines
250-261): the previous-header fields carry the chain state pb and pe as it
was before this block was folded in, the filter-bytes fields carry the
serialization of the nil-substituted filters, and the resulting-header
fields carry the freshly computed headers. -/
def rowOf (env : Env) (c : TestBlockCase) (height : Nat) (pb pe : Bytes)
    (bf ef : Option GCSFilter) : Row :=
  { height := height,
    blockHash := (env.chain height).blockHash,
    blockData := env.serializeBlock (env.chain height),
    prevBasicHeader := pb,
    prevExtHeader := pe,
    basicFilterBytes := nBytes (bf.getD emptyFilter),
    extFilterBytes := nBytes (ef.getD emptyFilter),
    basicHeader := makeHeaderForFilter env bf pb,
    extHeader := makeHeaderForFilter env ef pe,
    note := c.comment }

/-- The successor state produced by one iteration of the inner P loop when
nothing aborts: the row (built from the pre-update header slots) is appended
to file i when the current height is the pending interesting height, and
then both header slots i are overwritten with the freshly computed
headers (src lines 237-269). -/
def updatedState (env : Env) (c : TestBlockCase) (height : Nat)
    (st : DriverState) (i : Nat) (bf ef : Option GCSFilter) : DriverState :=
  let basicHeader := makeHeaderForFilter env bf (st.prevBasicHeaders i)
  let extHeader := makeHeaderForFilter env ef (st.prevExtHeaders i)
  let row : Row :=
    rowOf env c height (st.prevBasicHeaders i) (st.prevExtHeaders i) bf ef
  { files := fun j =>
      if height = c.height then
        (if j = i then st.files i ++ [row] else st.files j)
      else st.files j,
    prevBasicHeaders := fun j => if j = i then basicHeader else st.prevBasicHeaders j,
    prevExtHeaders := fun j => if j = i then extHeader else st.prevExtHeaders j }

/-- One iteration of the inner P loop (src lines 157-270): build both
filters (key errors abort), compute both headers from the raw build results,
substitute the explicit empty filter for a nil one, cross-check bytes and
headers against the reference server when i is the default P — any mismatch
aborts in source order — then append the row when the height is interesting
and advance the two header slots. -/
def processP (env : Env) (c : TestBlockCase) (height : Nat)
    (st : DriverState) (i : Nat) : Except Abort DriverState :=
  match buildBasicFilter env (env.chain height) i with
  | .error _ => .error (.buildError height i)
  | .ok bf =>
    match buildExtFilter env (env.chain height) i with
    | .error _ => .error (.buildError height i)
    | .ok ef =>
      if i = env.defaultP ∧
          env.refFilterBasic (env.chain height).blockHash ≠ nBytes (bf.getD emptyFilter) then
        .error (.basicFilterMismatch height i)
      else if i = env.defaultP ∧
          env.refFilterExt (env.chain height).blockHash ≠ nBytes (ef.getD emptyFilter) then
        .error (.extFilterMismatch height i)
      else if i = env.defaultP ∧
          env.refHeaderBasic (env.chain height).blockHash ≠
            makeHeaderForFilter env bf (st.prevBasicHeaders i) then
        .error (.basicHeaderMismatch height i)
      else if i = env.defaultP ∧
          env.refHeaderExt (env.chain height).blockHash ≠
            makeHeaderForFilter env ef (st.prevExtHeaders i) then
        .error (.extHeaderMismatch height i)
      else
        .ok (updatedState env c height st i bf ef)

/-- One height of the driver: the inner loop for i = 1..32 (src line 157),
stopping at the first abort. -/
def processHeight (env : Env) (c : TestBlockCase) (height : Nat)
    (st : DriverState) : Except Abort DriverState :=
  (List.range' 1 32).foldlM (fun s i => processP env c height s i) st

/-- The outer height loop (src lines 137-275): while interesting heights
remain, process the height and advance the interesting-height index exactly
when the height matched.  The Go loop can run forever when the table is not
sorted, so the embedding carries explicit fuel; `none` means the fuel ran
out while the guard was still true. -/
def driverLoop (env : Env) (heights : List TestBlockCase) :
    Nat → Nat → Nat → DriverState → Option (Except Abort DriverState)
  | 0, idx, _, st =>
    if idx < heights.length then none else some (.ok st)
  | fuel + 1, idx, height, st =>
    if h : idx < heights.length then
      let c := heights.get ⟨idx, h⟩
      match processHeight env c height st with
      | .error e => some (.error e)
      | .ok st2 =>
        driverLoop env heights fuel
          (if height = c.height then idx + 1 else idx) (height + 1) st2
    else some (.ok st)

/-- The whole generator run (main, src lines 89-276): the height loop from
height 0 and index 0 on the freshly initialized state, over the concrete
interesting-heights table. -/
def genTestVectors (env : Env) (fuel : Nat) : Option (Except Abort DriverState) :=
  driverLoop env testBlockHeights fuel 0 0 initState

/-- The filter buildBasicFilter produces once the key is known to derive
(the total success-path value). -/
def basicFilterOf (env : Env) (block : MsgBlock) (p : Nat) : Option GCSFilter :=
  buildGCSFilter env.hashFn ((deriveKey block.blockHash).getD []) p (basicElements block)

/-- The filter buildExtFilter produces once the key is known to derive. -/
def extFilterOf (env : Env) (block : MsgBlock) (p : Nat) : Option GCSFilter :=
  buildGCSFilter env.hashFn ((deriveKey block.blockHash).getD []) p (extElements block)

/-- The cross-validation at the default P fails: at least one of the four
comparisons of src lines 186-235 — basic filter bytes, extended filter
bytes, basic header, extended header — disagrees with the reference server,
where pb and pe are the previous-header slots of the default P. -/
def crossCheckMismatch (env : Env) (height : Nat) (pb pe : Bytes) : Prop :=
  env.refFilterBasic (env.chain height).blockHash ≠
      nBytes ((basicFilterOf env (env.chain height) env.defaultP).getD emptyFilter) ∨
    env.refFilterExt (env.chain height).blockHash ≠
      nBytes ((extFilterOf env (env.chain height) env.defaultP).getD emptyFilter) ∨
    env.refHeaderBasic (env.chain height).blockHash ≠
      makeHeaderForFilter env (basicFilterOf env (env.chain height) env.defaultP) pb ∨
    env.refHeaderExt (env.chain height).blockHash ≠
      makeHeaderForFilter env (extFilterOf env (env.chain height) env.defaultP) pe

instance (env : Env) (height : Nat) (pb pe : Bytes) :
    Decidable (crossCheckMismatch env height pb pe) := by
  unfold crossCheckMismatch; infer_instance

/-- The abort the cross-check produces, in the source's check order. -/
def crossAbort (env : Env) (height : Nat) (pb pe : Bytes) : Abort :=
  if env.refFilterBasic (env.chain height).blockHash ≠
      nBytes ((basicFilterOf env (env.chain height) env.defaultP).getD emptyFilter) then
    .basicFilterMismatch height env.defaultP
  else if env.refFilterExt (env.chain height).blockHash ≠
      nBytes ((extFilterOf env (env.chain height) env.defaultP).getD emptyFilter) then
    .extFilterMismatch height env.defaultP
  else if env.refHeaderBasic (env.chain height).blockHash ≠
      makeHeaderForFilter env (basicFilterOf env (env.chain height) env.defaultP) pb then
    .basicHeaderMismatch height env.defaultP
  else
    .extHeaderMismatch height env.defaultP

/-- The state inside a successful Except result (initState for an error,
which callers rule out). -/
def stateOf : Except Abort DriverState → DriverState
  | .ok st => st
  | .error _ => initState

/-- The state inside a completed successful driver run (initState
otherwise, which callers rule out). -/
def valueOf : Option (Except Abort DriverState) → DriverState
  | some (.ok st) => st
  | _ => initState

/-- The three slot-i cells of the driver state. -/
def slotOf (st : DriverState) (i : Nat) : Bytes × Bytes × List Row :=
  (st.prevBasicHeaders i, st.prevExtHeaders i, st.files i)

/-- Overwrite the three slot-i cells of the driver state. -/
def applySlot (st : DriverState) (i : Nat) (t : Bytes × Bytes × List Row) :
    DriverState :=
  { files := fun j => if j = i then t.2.2 else st.files j,
    prevBasicHeaders := fun j => if j = i then t.1 else st.prevBasicHeaders j,
    prevExtHeaders := fun j => if j = i then t.2.1 else st.prevExtHeaders j }

/-- Overwrite the three slot-0 cells of the driver state. -/
def setSlot0 (st : DriverState) (t : Bytes × Bytes × List Row) : DriverState :=
  applySlot st 0 t

/-- The slot-local form of one inner-loop iteration: the same computation as
processP, phrased on the three slot-i cells alone. -/
def processPSlot (env : Env) (c : TestBlockCase) (height : Nat)
    (t : Bytes × Bytes × List Row) (i : Nat) :
    Except Abort (Bytes × Bytes × List Row) :=
  match buildBasicFilter env (env.chain height) i with
  | .error _ => .error (.buildError height i)
  | .ok bf =>
    match buildExtFilter env (env.chain height) i with
    | .error _ => .error (.buildError height i)
    | .ok ef =>
      if i = env.defaultP ∧
          env.refFilterBasic (env.chain height).blockHash ≠ nBytes (bf.getD emptyFilter) then
        .error (.basicFilterMismatch height i)
      else if i = env.defaultP ∧
          env.refFilterExt (env.chain height).blockHash ≠ nBytes (ef.getD emptyFilter) then
        .error (.extFilterMismatch height i)
      else if i = env.defaultP ∧
          env.refHeaderBasic (env.chain height).blockHash ≠
            makeHeaderForFilter env bf t.1 then
        .error (.basicHeaderMismatch height i)
      else if i = env.defaultP ∧
          env.refHeaderExt (env.chain height).blockHash ≠
            makeHeaderForFilter env ef t.2.1 then
        .error (.extHeaderMismatch height i)
      else
        .ok (makeHeaderForFilter env bf t.1, makeHeaderForFilter env ef t.2.1,
             if height = c.height then t.2.2 ++ [rowOf env c height t.1 t.2.1 bf ef]
             else t.2.2)

/-- Replace the input list of the first (coinbase) transaction of a block,
leaving everything else — including the stored transaction digest —
unchanged. -/
def setCoinbaseInputs (b : MsgBlock) (ins : List TxIn) : MsgBlock :=
  match b.transactions with
  | [] => b
  | tx :: rest => { b with transactions := { tx with txIn := ins } :: rest }

/-- The largest interesting height of a test-case table. -/
def maxCaseHeight (l : List TestBlockCase) : Nat :=
  l.foldr (fun c m => max c.height m) 0

/-- A concrete interesting-heights table used to instantiate theorems. -/
def wHeights : List TestBlockCase :=
  [{ height := 0, comment := "" }, { height := 2, comment := "" }]

/-- The interesting-height entry used to instantiate per-height theorems. -/
def wCase0 : TestBlockCase := { height := 0, comment := "" }

/-- A coinbase transaction whose single output locking script is the 2-byte
push 0x02 0xab 0xcd. -/
def cbTx : MsgTx :=
  { txid := List.replicate 32 1, txIn := [],
    txOut := [{ pkScript := [2, 171, 205] }] }

/-- A concrete block exhibiting the basic-filter output-script divergence;
it also has an empty extended element set (its only transaction is the
coinbase). -/
def divergenceBlock : MsgBlock :=
  { blockHash := List.replicate 32 7, transactions := [cbTx] }

/-- A concrete environment whose default P lies outside the inner loop's
1..32 range, so no cross-check fires; used to instantiate theorems. -/
def wEnv : Env :=
  { chain := fun _ => divergenceBlock,
    serializeBlock := fun b => b.blockHash,
    hashFn := fun _ e => e.length,
    dHash := fun l => l.take 4,
    defaultP := 0,
    refFilterBasic := fun _ => [],
    refFilterExt := fun _ => [],
    refHeaderBasic := fun _ => [],
    refHeaderExt := fun _ => [] }

/-- A concrete environment whose reference server disagrees with the local
basic filter bytes at the default P, used to instantiate the abort
theorem. -/
def wEnvBad : Env :=
  { chain := fun _ => divergenceBlock,
    serializeBlock := fun b => b.blockHash,
    hashFn := fun _ e => e.length,
    dHash := fun l => l.take 4,
    defaultP := 1,
    refFilterBasic := fun _ => [9],
    refFilterExt := fun _ => [9],
    refHeaderBasic := fun _ => [9],
    refHeaderExt := fun _ => [9] }

/-- Claim C1: the claim (with the source's own comments) says every output
contributes each individually-pushed data item of its locking script, but
buildBasicFilter calls AddEntry(txOut.PkScript), adding the whole raw script
as a single element.  At a block whose only output script is the push
0x02 0xab 0xcd, the code's basic element set contains the raw script and not
the pushed item 0xab 0xcd, so it differs from the element set the claim
describes. -/
theorem C1_basic_output_pushes_code_divergence :
    basicElements divergenceBlock = [cbTx.txid, [2, 171, 205]] ∧
    specBasicElements divergenceBlock = [cbTx.txid, [171, 205]] ∧
    [171, 205] ∉ basicElements divergenceBlock ∧
    basicElements divergenceBlock ≠ specBasicElements divergenceBlock := by
  decide

/-- Sorting with insertion sort is invariant under permutation of the
input. -/
theorem insertionSort_eq_of_perm {l₁ l₂ : List Nat} (h : l₁.Perm l₂) :
    List.insertionSort (fun a b => a ≤ b) l₁ =
      List.insertionSort (fun a b => a ≤ b) l₂ :=
  List.eq_of_perm_of_sorted
    ((List.perm_insertionSort _ l₁).trans (h.trans (List.perm_insertionSort _ l₂).symm))
    (List.sorted_insertionSort _ l₁) (List.sorted_insertionSort _ l₂)

/-- Claim C5: for every key, every P and every element set, the GCS build is
deterministic and insertion-order independent — presenting the same elements
in any other order yields an identical filter, hence byte-identical
output. -/
theorem C5_gcs_build_order_independent (hashFn : Bytes → Bytes → Nat)
    (key : Bytes) (p : Nat) (E E' : List Bytes) (h : E.Perm E') :
    buildGCSFilter hashFn key p E = buildGCSFilter hashFn key p E' := by
  by_cases hE : E = []
  · subst hE
    have hE' : E' = [] := h.symm.eq_nil
    subst hE'
    rfl
  · have hE' : E' ≠ [] := fun he => hE ((he ▸ h).eq_nil)
    have hd : E.dedup.Perm E'.dedup := h.dedup
    have hlen : E'.dedup.length = E.dedup.length := hd.length_eq.symm
    unfold buildGCSFilter
    simp only [if_neg hE, if_neg hE', hlen]
    rw [insertionSort_eq_of_perm
      (hd.map (fun e => hashFn key e % (E.dedup.length * 2 ^ p)))]

/-- Claim C5 witness: two concrete permutations of one element set build the
same filter. -/
theorem C5_gcs_build_order_independent_witness :
    ([[1], [2], [1]] : List Bytes).Perm [[2], [1], [1]] ∧
    buildGCSFilter (fun _ e => e.length) [3] 2 [[1], [2], [1]] =
      buildGCSFilter (fun _ e => e.length) [3] 2 [[2], [1], [1]] :=
  ⟨by decide,
   C5_gcs_build_order_independent (fun _ e => e.length) [3] 2
     [[1], [2], [1]] [[2], [1], [1]] (by decide)⟩

/-- The non-coinbase tail of an indexed transaction list contributes its
extended elements with the index guard always false. -/
theorem enumFrom_ext_flatMap (txs : List MsgTx) (k : Nat) :
    (List.enumFrom (k + 1) txs).flatMap (fun q => extTxElements (q.1 == 0) q.2) =
      txs.flatMap (fun tx => tx.txIn.flatMap extInputElements) := by
  induction txs generalizing k with
  | nil => rfl
  | cons tx rest ih =>
    simp only [List.enumFrom, List.flatMap_cons]
    rw [ih (k + 1)]
    simp [extTxElements]

/-- The non-coinbase tail of an indexed transaction list contributes its
basic elements with the index guard always false. -/
theorem enumFrom_basic_flatMap (txs : List MsgTx) (k : Nat) :
    (List.enumFrom (k + 1) txs).flatMap (fun q => basicTxElements (q.1 == 0) q.2) =
      txs.flatMap (fun tx =>
        [tx.txid] ++ tx.txIn.map (fun ti => serializeOutPoint ti.previousOutPoint) ++
          tx.txOut.map (fun o => o.pkScript)) := by
  induction txs generalizing k with
  | nil => rfl
  | cons tx rest ih =>
    simp only [List.enumFrom, List.flatMap_cons]
    rw [ih (k + 1)]
    simp [basicTxElements]

/-- Claim C2: the extended element set is exactly the per-input signature
script pushes and witness items of the non-coinbase transactions, in order;
a block's coinbase contributes nothing to the extended set and no
input-outpoint element to the basic set, whatever its inputs hold —
replacing the coinbase's inputs wholesale leaves the extended set unchanged,
and the basic set's shape never mentions them. -/
theorem C2_extended_set_and_coinbase_inputs :
    (∀ b : MsgBlock,
        extElements b =
          b.transactions.tail.flatMap (fun tx => tx.txIn.flatMap extInputElements)) ∧
    (∀ (bh : Bytes) (cb : MsgTx) (rest : List MsgTx),
        basicElements { blockHash := bh, transactions := cb :: rest } =
          [cb.txid] ++ cb.txOut.map (fun o => o.pkScript) ++
            rest.flatMap (fun tx =>
              [tx.txid] ++
                tx.txIn.map (fun ti => serializeOutPoint ti.previousOutPoint) ++
                tx.txOut.map (fun o => o.pkScript))) ∧
    (∀ (b : MsgBlock) (ins : List TxIn),
        extElements (setCoinbaseInputs b ins) = extElements b) := by
  have hext : ∀ b : MsgBlock,
      extElements b =
        b.transactions.tail.flatMap (fun tx => tx.txIn.flatMap extInputElements) := by
    intro b
    cases hb : b.transactions with
    | nil => simp [extElements, hb]
    | cons cb rest =>
      simp only [extElements, hb, List.enum_cons, List.flatMap_cons, List.tail_cons]
      rw [enumFrom_ext_flatMap rest 0]
      simp [extTxElements]
  refine ⟨hext, ?_, ?_⟩
  · intro bh cb rest
    simp only [basicElements, List.enum_cons, List.flatMap_cons]
    rw [enumFrom_basic_flatMap rest 0]
    simp [basicTxElements]
  · intro b ins
    rw [hext, hext]
    cases hb : b.transactions with
    | nil => simp [setCoinbaseInputs, hb]
    | cons cb rest => simp [setCoinbaseInputs, hb]

/-- Projections of a slot overwrite at the overwritten slot. -/
theorem applySlot_at (st : DriverState) (i : Nat) (t : Bytes × Bytes × List Row) :
    (applySlot st i t).prevBasicHeaders i = t.1 ∧
    (applySlot st i t).prevExtHeaders i = t.2.1 ∧
    (applySlot st i t).files i = t.2.2 := by
  simp [applySlot]

/-- Projections of a slot overwrite away from the overwritten slot. -/
theorem applySlot_ne (st : DriverState) (i j : Nat) (hj : j ≠ i)
    (t : Bytes × Bytes × List Row) :
    (applySlot st i t).prevBasicHeaders j = st.prevBasicHeaders j ∧
    (applySlot st i t).prevExtHeaders j = st.prevExtHeaders j ∧
    (applySlot st i t).files j = st.files j := by
  simp [applySlot, hj]

/-- The inner-loop successor state is exactly the slot-i overwrite of the
previous state with the two new headers and the possibly-extended file. -/
theorem updatedState_eq_applySlot (env : Env) (c : TestBlockCase) (height : Nat)
    (st : DriverState) (i : Nat) (bf ef : Option GCSFilter) :
    updatedState env c height st i bf ef =
      applySlot st i
        (makeHeaderForFilter env bf (st.prevBasicHeaders i),
         makeHeaderForFilter env ef (st.prevExtHeaders i),
         if height = c.height then
           st.files i ++
             [rowOf env c height (st.prevBasicHeaders i) (st.prevExtHeaders i) bf ef]
         else st.files i) := by
  unfold updatedState applySlot
  refine DriverState.ext ?_ ?_ ?_ <;> funext j <;>
    by_cases hj : j = i <;> by_cases hh : height = c.height <;> simp [hj, hh]

/-- processP factors through its slot-i cells: it reads and writes nothing
outside slot i of the driver state. -/
theorem processP_slot_factor (env : Env) (c : TestBlockCase) (height : Nat)
    (st : DriverState) (i : Nat) :
    processP env c height st i =
      Except.map (applySlot st i) (processPSlot env c height (slotOf st i) i) := by
  unfold processP processPSlot slotOf
  cases buildBasicFilter env (env.chain height) i with
  | error e => rfl
  | ok bf =>
    cases buildExtFilter env (env.chain height) i with
    | error e => rfl
    | ok ef =>
      dsimp only
      split_ifs with h1 h2 h3 h4 h5 <;> try rfl
      · simp only [Except.map]
        rw [updatedState_eq_applySlot]
        simp [h5]
      · simp only [Except.map]
        rw [updatedState_eq_applySlot]
        simp [h5]

/-- Anatomy of a successful inner-loop iteration: both filters were built,
every cross-check passed when i is the default P, and the new state is the
slot-i overwrite with the new headers and the possibly-extended file. -/
theorem processP_ok_destruct {env : Env} {c : TestBlockCase} {height : Nat}
    {st : DriverState} {i : Nat} {st' : DriverState}
    (h : processP env c height st i = .ok st') :
    ∃ bf ef, buildBasicFilter env (env.chain height) i = .ok bf ∧
      buildExtFilter env (env.chain height) i = .ok ef ∧
      st' = applySlot st i
        (makeHeaderForFilter env bf (st.prevBasicHeaders i),
         makeHeaderForFilter env ef (st.prevExtHeaders i),
         if height = c.height then
           st.files i ++
             [rowOf env c height (st.prevBasicHeaders i) (st.prevExtHeaders i) bf ef]
         else st.files i) ∧
      (i = env.defaultP →
        env.refFilterBasic (env.chain height).blockHash = nBytes (bf.getD emptyFilter) ∧
        env.refFilterExt (env.chain height).blockHash = nBytes (ef.getD emptyFilter) ∧
        env.refHeaderBasic (env.chain height).blockHash =
          makeHeaderForFilter env bf (st.prevBasicHeaders i) ∧
        env.refHeaderExt (env.chain height).blockHash =
          makeHeaderForFilter env ef (st.prevExtHeaders i)) := by
  unfold processP at h
  cases hb : buildBasicFilter env (env.chain height) i with
  | error e => rw [hb] at h; exact absurd h (by simp)
  | ok bf =>
    rw [hb] at h
    cases he : buildExtFilter env (env.chain height) i with
    | error e => rw [he] at h; exact absurd h (by simp)
    | ok ef =>
      rw [he] at h
      dsimp only at h
      split_ifs at h with h1 h2 h3 h4
      have hst : updatedState env c height st i bf ef = st' := Except.ok.inj h
      refine ⟨bf, ef, rfl, rfl, ?_, ?_⟩
      · rw [← hst, updatedState_eq_applySlot]
      · intro hdp
        refine ⟨?_, ?_, ?_, ?_⟩
        · by_contra hne; exact h1 ⟨hdp, hne⟩
        · by_contra hne; exact h2 ⟨hdp, hne⟩
        · by_contra hne; exact h3 ⟨hdp, hne⟩
        · by_contra hne; exact h4 ⟨hdp, hne⟩

/-- Claim C3: for every slot and both variants, each driver step computes
the new header as doubleHash(filterHash ++ previousHeader) from that slot's
running previous header, and the pre-genesis previous headers (the state
the very first height reads) are the all-zero 32-byte value for both chains
and every slot. -/
theorem C3_header_chain_invariant :
    (∀ i, initState.prevBasicHeaders i = List.replicate 32 0 ∧
          initState.prevExtHeaders i = List.replicate 32 0) ∧
    (∀ (env : Env) (c : TestBlockCase) (height : Nat) (st : DriverState)
        (i : Nat) (st' : DriverState), processP env c height st i = .ok st' →
      ∃ bf ef, buildBasicFilter env (env.chain height) i = .ok bf ∧
        buildExtFilter env (env.chain height) i = .ok ef ∧
        st'.prevBasicHeaders i =
          env.dHash (getFilterHash env bf ++ st.prevBasicHeaders i) ∧
        st'.prevExtHeaders i =
          env.dHash (getFilterHash env ef ++ st.prevExtHeaders i)) := by
  refine ⟨fun i => ⟨rfl, rfl⟩, ?_⟩
  intro env c height st i st' h
  obtain ⟨bf, ef, hb, he, hst, _⟩ := processP_ok_destruct h
  subst hst
  obtain ⟨hpb, hpe, _⟩ := applySlot_at st i _
  exact ⟨bf, ef, hb, he, hpb, hpe⟩

/-- Claim C3 witness: the chain-step rule instantiated at a concrete
environment, height 0 and slot 2 of the all-zero initial state. -/
theorem C3_header_chain_invariant_witness :
    ∃ st', processP wEnv wCase0 0 initState 2 = .ok st' ∧
      ∃ bf ef, buildBasicFilter wEnv (wEnv.chain 0) 2 = .ok bf ∧
        buildExtFilter wEnv (wEnv.chain 0) 2 = .ok ef ∧
        st'.prevBasicHeaders 2 =
          wEnv.dHash (getFilterHash wEnv bf ++ initState.prevBasicHeaders 2) ∧
        st'.prevExtHeaders 2 =
          wEnv.dHash (getFilterHash wEnv ef ++ initState.prevExtHeaders 2) :=
  ⟨stateOf (processP wEnv wCase0 0 initState 2), rfl,
   C3_header_chain_invariant.2 wEnv wCase0 0 initState 2 _ rfl⟩

/-- Claim C8: in an emitted row the previous-header fields are the per-P
chain state from before the block was folded in and the resulting-header
fields are the freshly computed headers; the slot's chain state is
overwritten with exactly those new headers, once, and the row records the
pre-overwrite values. -/
theorem C8_row_records_chain_state :
    ∀ (env : Env) (c : TestBlockCase) (height : Nat) (st : DriverState)
      (i : Nat) (st' : DriverState), processP env c height st i = .ok st' →
    ∃ bf ef, buildBasicFilter env (env.chain height) i = .ok bf ∧
      buildExtFilter env (env.chain height) i = .ok ef ∧
      st'.prevBasicHeaders i = makeHeaderForFilter env bf (st.prevBasicHeaders i) ∧
      st'.prevExtHeaders i = makeHeaderForFilter env ef (st.prevExtHeaders i) ∧
      (height = c.height →
        ∃ r, st'.files i = st.files i ++ [r] ∧
          r.prevBasicHeader = st.prevBasicHeaders i ∧
          r.prevExtHeader = st.prevExtHeaders i ∧
          r.basicHeader = st'.prevBasicHeaders i ∧
          r.extHeader = st'.prevExtHeaders i ∧
          r.height = height ∧
          r.basicFilterBytes = nBytes (bf.getD emptyFilter) ∧
          r.extFilterBytes = nBytes (ef.getD emptyFilter)) ∧
      (height ≠ c.height → st'.files i = st.files i) := by
  intro env c height st i st' h
  obtain ⟨bf, ef, hb, he, hst, _⟩ := processP_ok_destruct h
  subst hst
  refine ⟨bf, ef, hb, he, by simp [applySlot], by simp [applySlot], ?_, ?_⟩
  · intro hh
    refine ⟨rowOf env c height (st.prevBasicHeaders i) (st.prevExtHeaders i) bf ef,
      by simp [applySlot, hh], rfl, rfl, ?_, ?_, rfl, rfl, rfl⟩
    · simp [applySlot, rowOf]
    · simp [applySlot, rowOf]
  · intro hh
    simp [applySlot, hh]

/-- Claim C8 witness: the row written at height 0 for slot 2 records the
all-zero previous headers and the new headers that overwrite them. -/
theorem C8_row_records_chain_state_witness :
    ∃ st', processP wEnv wCase0 0 initState 2 = .ok st' ∧
      ∃ bf ef, buildBasicFilter wEnv (wEnv.chain 0) 2 = .ok bf ∧
        buildExtFilter wEnv (wEnv.chain 0) 2 = .ok ef ∧
        st'.prevBasicHeaders 2 =
          makeHeaderForFilter wEnv bf (initState.prevBasicHeaders 2) ∧
        st'.prevExtHeaders 2 =
          makeHeaderForFilter wEnv ef (initState.prevExtHeaders 2) ∧
        ((0 : Nat) = wCase0.height →
          ∃ r, st'.files 2 = initState.files 2 ++ [r] ∧
            r.prevBasicHeader = initState.prevBasicHeaders 2 ∧
            r.prevExtHeader = initState.prevExtHeaders 2 ∧
            r.basicHeader = st'.prevBasicHeaders 2 ∧
            r.extHeader = st'.prevExtHeaders 2 ∧
            r.height = 0 ∧
            r.basicFilterBytes = nBytes (bf.getD emptyFilter) ∧
            r.extFilterBytes = nBytes (ef.getD emptyFilter)) ∧
        ((0 : Nat) ≠ wCase0.height → st'.files 2 = initState.files 2) :=
  ⟨stateOf (processP wEnv wCase0 0 initState 2), rfl,
   C8_row_records_chain_state wEnv wCase0 0 initState 2 _ rfl⟩

/-- A successful basic-filter build over an empty element set yields the nil
filter. -/
theorem buildBasicFilter_empty {env : Env} {block : MsgBlock} {p : Nat}
    {bf : Option GCSFilter} (hb : buildBasicFilter env block p = .ok bf)
    (hempty : basicElements block = []) : bf = none := by
  unfold buildBasicFilter at hb
  cases hk : deriveKey block.blockHash with
  | none => rw [hk] at hb; exact absurd hb (by simp)
  | some k =>
    rw [hk] at hb
    have h2 := Except.ok.inj hb
    rw [hempty] at h2
    simp [buildGCSFilter] at h2
    exact h2.symm

/-- A successful extended-filter build over an empty element set yields the
nil filter. -/
theorem buildExtFilter_empty {env : Env} {block : MsgBlock} {p : Nat}
    {ef : Option GCSFilter} (he : buildExtFilter env block p = .ok ef)
    (hempty : extElements block = []) : ef = none := by
  unfold buildExtFilter at he
  cases hk : deriveKey block.blockHash with
  | none => rw [hk] at he; exact absurd he (by simp)
  | some k =>
    rw [hk] at he
    have h2 := Except.ok.inj he
    rw [hempty] at h2
    simp [buildGCSFilter] at h2
    exact h2.symm

/-- Claim C6: a block whose extracted element set is empty builds a nil
filter without raising an error; the driver substitutes the explicit empty
filter value, whose NBytes is the canonical one-byte zero-count encoding
[0], and those are the bytes the emitted row carries.  nBytes is a total
function of the filter value, so the call is equally well-defined before
and after Build. -/
theorem C6_empty_set_explicit_empty_filter :
    ∀ (env : Env) (c : TestBlockCase) (height : Nat) (st : DriverState)
      (i : Nat) (st' : DriverState), processP env c height st i = .ok st' →
    nBytes emptyFilter = [0] ∧
    (basicElements (env.chain height) = [] →
      buildBasicFilter env (env.chain height) i = .ok none ∧
      (height = c.height →
        ∃ r, st'.files i = st.files i ++ [r] ∧ r.basicFilterBytes = [0])) ∧
    (extElements (env.chain height) = [] →
      buildExtFilter env (env.chain height) i = .ok none ∧
      (height = c.height →
        ∃ r, st'.files i = st.files i ++ [r] ∧ r.extFilterBytes = [0])) := by
  intro env c height st i st' h
  obtain ⟨bf, ef, hb, he, hst, _⟩ := processP_ok_destruct h
  subst hst
  refine ⟨rfl, ?_, ?_⟩
  · intro hempty
    have hbf : bf = none := buildBasicFilter_empty hb hempty
    subst hbf
    refine ⟨hb, fun hh =>
      ⟨rowOf env c height (st.prevBasicHeaders i) (st.prevExtHeaders i) none ef,
       by simp [applySlot, hh], rfl⟩⟩
  · intro hempty
    have hef : ef = none := buildExtFilter_empty he hempty
    subst hef
    refine ⟨he, fun hh =>
      ⟨rowOf env c height (st.prevBasicHeaders i) (st.prevExtHeaders i) bf none,
       by simp [applySlot, hh], rfl⟩⟩

/-- Claim C6 witness: a concrete block whose extended element set is empty
(a lone coinbase) produces the nil build result, and the row written at
height 0 carries the canonical empty encoding [0] for the extended
filter. -/
theorem C6_empty_set_explicit_empty_filter_witness :
    extElements (wEnv.chain 0) = [] ∧
    ∃ st', processP wEnv wCase0 0 initState 2 = .ok st' ∧
      (nBytes emptyFilter = [0] ∧
       (basicElements (wEnv.chain 0) = [] →
         buildBasicFilter wEnv (wEnv.chain 0) 2 = .ok none ∧
         ((0 : Nat) = wCase0.height →
           ∃ r, st'.files 2 = initState.files 2 ++ [r] ∧ r.basicFilterBytes = [0])) ∧
       (extElements (wEnv.chain 0) = [] →
         buildExtFilter wEnv (wEnv.chain 0) 2 = .ok none ∧
         ((0 : Nat) = wCase0.height →
           ∃ r, st'.files 2 = initState.files 2 ++ [r] ∧ r.extFilterBytes = [0]))) :=
  ⟨by decide,
   stateOf (processP wEnv wCase0 0 initState 2), rfl,
   C6_empty_set_explicit_empty_filter wEnv wCase0 0 initState 2 _ rfl⟩

/-- Claim C10: when a build returns the nil filter, the header for that
slot is computed from that nil value exactly as Build returned it, while
the row bytes and the cross-checked bytes come from the substituted
explicit empty filter — the nil-to-empty substitution falls after the
header computation and before every NBytes use. -/
theorem C10_nil_substitution_order :
    ∀ (env : Env) (c : TestBlockCase) (height : Nat) (st : DriverState)
      (i : Nat) (st' : DriverState), processP env c height st i = .ok st' →
    (buildBasicFilter env (env.chain height) i = .ok none →
      st'.prevBasicHeaders i = makeHeaderForFilter env none (st.prevBasicHeaders i) ∧
      (height = c.height →
        ∃ r, st'.files i = st.files i ++ [r] ∧
          r.basicFilterBytes = nBytes emptyFilter) ∧
      (i = env.defaultP →
        env.refFilterBasic (env.chain height).blockHash = nBytes emptyFilter)) ∧
    (buildExtFilter env (env.chain height) i = .ok none →
      st'.prevExtHeaders i = makeHeaderForFilter env none (st.prevExtHeaders i) ∧
      (height = c.height →
        ∃ r, st'.files i = st.files i ++ [r] ∧
          r.extFilterBytes = nBytes emptyFilter) ∧
      (i = env.defaultP →
        env.refFilterExt (env.chain height).blockHash = nBytes emptyFilter)) := by
  intro env c height st i st' h
  obtain ⟨bf, ef, hb, he, hst, hchecks⟩ := processP_ok_destruct h
  subst hst
  constructor
  · intro hbn
    have hbf : bf = none := Except.ok.inj (hb.symm.trans hbn)
    subst hbf
    refine ⟨by simp [applySlot], fun hh =>
      ⟨rowOf env c height (st.prevBasicHeaders i) (st.prevExtHeaders i) none ef,
       by simp [applySlot, hh], rfl⟩, fun hdp => (hchecks hdp).1⟩
  · intro hen
    have hef : ef = none := Except.ok.inj (he.symm.trans hen)
    subst hef
    refine ⟨by simp [applySlot], fun hh =>
      ⟨rowOf env c height (st.prevBasicHeaders i) (st.prevExtHeaders i) bf none,
       by simp [applySlot, hh], rfl⟩, fun hdp => (hchecks hdp).2.1⟩

/-- Claim C10 witness: the extended build at the lone-coinbase block returns
the nil filter, and the substitution-order facts hold at that instance. -/
theorem C10_nil_substitution_order_witness :
    buildExtFilter wEnv (wEnv.chain 0) 2 = .ok none ∧
    ∃ st', processP wEnv wCase0 0 initState 2 = .ok st' ∧
      (st'.prevExtHeaders 2 =
        makeHeaderForFilter wEnv none (initState.prevExtHeaders 2) ∧
      ((0 : Nat) = wCase0.height →
        ∃ r, st'.files 2 = initState.files 2 ++ [r] ∧
          r.extFilterBytes = nBytes emptyFilter) ∧
      ((2 : Nat) = wEnv.defaultP →
        wEnv.refFilterExt (wEnv.chain 0).blockHash = nBytes emptyFilter)) :=
  ⟨rfl,
   stateOf (processP wEnv wCase0 0 initState 2), rfl,
   (C10_nil_substitution_order wEnv wCase0 0 initState 2 _ rfl).2 rfl⟩

/-- An inner-loop iteration for a nonzero slot commutes with overwriting
slot 0: it neither reads nor writes that slot. -/
theorem processP_setSlot0 (env : Env) (c : TestBlockCase) (height : Nat)
    (st : DriverState) (v : Bytes × Bytes × List Row) (j : Nat) (hj : j ≠ 0) :
    processP env c height (setSlot0 st v) j =
      Except.map (fun st2 => setSlot0 st2 v) (processP env c height st j) := by
  rw [processP_slot_factor env c height (setSlot0 st v) j,
    processP_slot_factor env c height st j]
  have hslot : slotOf (setSlot0 st v) j = slotOf st j := by
    simp [slotOf, setSlot0, applySlot, hj]
  rw [hslot]
  cases processPSlot env c height (slotOf st j) j with
  | error e => rfl
  | ok t =>
    simp only [Except.map]
    refine congrArg Except.ok ?_
    unfold setSlot0
    refine DriverState.ext ?_ ?_ ?_ <;> funext j2 <;>
      by_cases h2 : j2 = j <;> by_cases h0 : j2 = 0
    all_goals first
      | (exact absurd (h2.symm.trans h0) hj)
      | simp [applySlot, h2, h0, hj, Ne.symm hj]

/-- Folding nonzero-slot iterations over any index list commutes with
overwriting slot 0. -/
theorem foldlM_processP_setSlot0 (env : Env) (c : TestBlockCase) (height : Nat)
    (l : List Nat) (hl : ∀ j ∈ l, j ≠ 0) :
    ∀ (st : DriverState) (v : Bytes × Bytes × List Row),
      List.foldlM (fun s i => processP env c height s i) (setSlot0 st v) l =
        Except.map (fun st2 => setSlot0 st2 v)
          (List.foldlM (fun s i => processP env c height s i) st l) := by
  induction l with
  | nil => intro st v; rfl
  | cons j l ih =>
    intro st v
    rw [List.foldlM_cons, List.foldlM_cons,
      processP_setSlot0 env c height st v j (hl j (by simp))]
    cases processP env c height st j with
    | error e => rfl
    | ok st2 =>
      simpa using ih (fun j2 hj2 => hl j2 (by simp [hj2])) st2 v

/-- Claim C9: the 32 per-P chains are mutually independent — each inner-loop
iteration factors through the three slot-i cells alone (it reads and writes
only slot i of the previous-header and file arrays), and a whole height's
processing commutes with an arbitrary overwrite of slot 0, so slot 0 is
never read nor written after initialization. -/
theorem C9_per_slot_isolation :
    (∀ (env : Env) (c : TestBlockCase) (height : Nat) (st : DriverState) (i : Nat),
        processP env c height st i =
          Except.map (applySlot st i) (processPSlot env c height (slotOf st i) i)) ∧
    (∀ (env : Env) (c : TestBlockCase) (height : Nat) (st : DriverState)
        (v : Bytes × Bytes × List Row),
        processHeight env c height (setSlot0 st v) =
          Except.map (fun st2 => setSlot0 st2 v) (processHeight env c height st)) := by
  refine ⟨processP_slot_factor, ?_⟩
  intro env c height st v
  unfold processHeight
  refine foldlM_processP_setSlot0 env c height (List.range' 1 32) ?_ st v
  intro j hj
  have := List.mem_range'_1.mp hj
  omega

/-- Once the key derives, buildBasicFilter succeeds with the total
success-path value. -/
theorem buildBasicFilter_of_key {env : Env} {block : MsgBlock} {p : Nat}
    {k : Bytes} (hk : deriveKey block.blockHash = some k) :
    buildBasicFilter env block p = .ok (basicFilterOf env block p) := by
  unfold buildBasicFilter basicFilterOf
  rw [hk]
  rfl

/-- Once the key derives, buildExtFilter succeeds with the total
success-path value. -/
theorem buildExtFilter_of_key {env : Env} {block : MsgBlock} {p : Nat}
    {k : Bytes} (hk : deriveKey block.blockHash = some k) :
    buildExtFilter env block p = .ok (extFilterOf env block p) := by
  unfold buildExtFilter extFilterOf
  rw [hk]
  rfl

/-- The cross-check abort always names the height it happened at. -/
theorem abortHeight_crossAbort (env : Env) (height : Nat) (pb pe : Bytes) :
    abortHeight (crossAbort env height pb pe) = height := by
  unfold crossAbort
  split_ifs <;> rfl

/-- Away from the default P (and with a derivable key) an inner-loop
iteration never aborts. -/
theorem processP_ok_of_ne_default (env : Env) (c : TestBlockCase) (height : Nat)
    (st : DriverState) (i : Nat) {k : Bytes} (hi : i ≠ env.defaultP)
    (hk : deriveKey (env.chain height).blockHash = some k) :
    processP env c height st i =
      .ok (updatedState env c height st i (basicFilterOf env (env.chain height) i)
        (extFilterOf env (env.chain height) i)) := by
  unfold processP
  rw [buildBasicFilter_of_key hk, buildExtFilter_of_key hk]
  dsimp only
  rw [if_neg (fun hc => hi hc.1), if_neg (fun hc => hi hc.1),
    if_neg (fun hc => hi hc.1), if_neg (fun hc => hi hc.1)]

/-- At the default P, a failing cross-check makes the iteration abort with
the first failing comparison, in source order. -/
theorem processP_error_at_default (env : Env) (c : TestBlockCase) (height : Nat)
    (st : DriverState) {i : Nat} {k : Bytes} (hdp : i = env.defaultP)
    (hk : deriveKey (env.chain height).blockHash = some k)
    (hmis : crossCheckMismatch env height (st.prevBasicHeaders i)
      (st.prevExtHeaders i)) :
    processP env c height st i =
      .error (crossAbort env height (st.prevBasicHeaders i) (st.prevExtHeaders i)) := by
  subst hdp
  unfold processP
  rw [buildBasicFilter_of_key hk, buildExtFilter_of_key hk]
  dsimp only
  unfold crossAbort
  by_cases h1 : env.refFilterBasic (env.chain height).blockHash ≠
      nBytes ((basicFilterOf env (env.chain height) env.defaultP).getD emptyFilter)
  · rw [if_pos ⟨rfl, h1⟩, if_pos h1]
  · rw [if_neg (fun hc => h1 hc.2), if_neg h1]
    by_cases h2 : env.refFilterExt (env.chain height).blockHash ≠
        nBytes ((extFilterOf env (env.chain height) env.defaultP).getD emptyFilter)
    · rw [if_pos ⟨rfl, h2⟩, if_pos h2]
    · rw [if_neg (fun hc => h2 hc.2), if_neg h2]
      by_cases h3 : env.refHeaderBasic (env.chain height).blockHash ≠
          makeHeaderForFilter env (basicFilterOf env (env.chain height) env.defaultP)
            (st.prevBasicHeaders env.defaultP)
      · rw [if_pos ⟨rfl, h3⟩, if_pos h3]
      · rw [if_neg (fun hc => h3 hc.2), if_neg h3]
        by_cases h4 : env.refHeaderExt (env.chain height).blockHash ≠
            makeHeaderForFilter env (extFilterOf env (env.chain height) env.defaultP)
              (st.prevExtHeaders env.defaultP)
        · rw [if_pos ⟨rfl, h4⟩]
        · rcases hmis with hm | hm | hm | hm
          · exact absurd hm h1
          · exact absurd hm h2
          · exact absurd hm h3
          · exact absurd hm h4

/-- An abort-free iteration never touches header slots other than its
own. -/
theorem updatedState_prev_ne (env : Env) (c : TestBlockCase) (height : Nat)
    (st : DriverState) (i q : Nat) (hq : q ≠ i) (bf ef : Option GCSFilter) :
    (updatedState env c height st i bf ef).prevBasicHeaders q = st.prevBasicHeaders q ∧
    (updatedState env c height st i bf ef).prevExtHeaders q = st.prevExtHeaders q := by
  simp [updatedState, hq]

/-- Folding the inner loop over indices that avoid the default P and then
hitting the default P with a failing cross-check yields exactly the
cross-check abort computed from the untouched default-P slots. -/
theorem foldlM_error_at_default (env : Env) (c : TestBlockCase) (height : Nat)
    {k : Bytes} (hk : deriveKey (env.chain height).blockHash = some k)
    (l2 : List Nat) :
    ∀ (l1 : List Nat), (∀ j ∈ l1, j ≠ env.defaultP) → ∀ st : DriverState,
      crossCheckMismatch env height (st.prevBasicHeaders env.defaultP)
        (st.prevExtHeaders env.defaultP) →
      List.foldlM (fun s i => processP env c height s i) st
          (l1 ++ env.defaultP :: l2) =
        .error (crossAbort env height (st.prevBasicHeaders env.defaultP)
          (st.prevExtHeaders env.defaultP)) := by
  intro l1
  induction l1 with
  | nil =>
    intro _ st hmis
    rw [List.nil_append, List.foldlM_cons,
      processP_error_at_default env c height st rfl hk hmis]
    rfl
  | cons j l ih =>
    intro hne st hmis
    have hj : j ≠ env.defaultP := hne j (by simp)
    rw [List.cons_append, List.foldlM_cons,
      processP_ok_of_ne_default env c height st j hj hk]
    obtain ⟨hpb, hpe⟩ := updatedState_prev_ne env c height st j env.defaultP
      (Ne.symm hj) (basicFilterOf env (env.chain height) j)
      (extFilterOf env (env.chain height) j)
    have := ih (fun q hq => hne q (by simp [hq])) (updatedState env c height st j
      (basicFilterOf env (env.chain height) j) (extFilterOf env (env.chain height) j))
      (by rw [hpb, hpe]; exact hmis)
    rw [hpb, hpe] at this
    simpa using this

/-- Claim C4: when the default-P cross-validation against the reference
disagrees on the basic filter bytes, the extended filter bytes, the basic
header or the extended header, the whole run returns the corresponding
abort immediately — for every remaining fuel budget the loop's value is
that error, so no further height is ever processed, with no retry and no
salvage of partial output. -/
theorem C4_crosscheck_mismatch_aborts :
    ∀ (env : Env) (heights : List TestBlockCase) (idx height : Nat)
      (st : DriverState) (k : Bytes),
      idx < heights.length →
      deriveKey (env.chain height).blockHash = some k →
      1 ≤ env.defaultP → env.defaultP ≤ 32 →
      crossCheckMismatch env height (st.prevBasicHeaders env.defaultP)
        (st.prevExtHeaders env.defaultP) →
      ∃ e, abortHeight e = height ∧
        ∀ fuel, driverLoop env heights (fuel + 1) idx height st = some (.error e) := by
  intro env heights idx height st k hidx hk h1 h32 hmis
  refine ⟨crossAbort env height (st.prevBasicHeaders env.defaultP)
    (st.prevExtHeaders env.defaultP), abortHeight_crossAbort env height _ _, ?_⟩
  intro fuel
  have hsplit : List.range' 1 32 =
      List.range' 1 (env.defaultP - 1) ++
        env.defaultP :: List.range' (env.defaultP + 1) (32 - env.defaultP) := by
    have happ := List.range'_append 1 (env.defaultP - 1) (33 - env.defaultP) 1
    have e1 : 1 + 1 * (env.defaultP - 1) = env.defaultP := by omega
    have e2 : 33 - env.defaultP + (env.defaultP - 1) = 32 := by omega
    rw [e1, e2] at happ
    have e3 : 33 - env.defaultP = (32 - env.defaultP) + 1 := by omega
    rw [e3] at happ
    rw [← happ]
    rfl
  have hph : ∀ cc : TestBlockCase, processHeight env cc height st =
      .error (crossAbort env height (st.prevBasicHeaders env.defaultP)
        (st.prevExtHeaders env.defaultP)) := by
    intro cc
    unfold processHeight
    rw [hsplit]
    refine foldlM_error_at_default env cc height hk _ _ ?_ st hmis
    intro j hj
    have := List.mem_range'_1.mp hj
    omega
  simp only [driverLoop]
  rw [dif_pos hidx, hph]

/-- Claim C4 witness: with a reference server answering wrong basic filter
bytes at default P = 1, the run from height 0 over the concrete
interesting-heights table aborts at height 0 for every fuel budget. -/
theorem C4_crosscheck_mismatch_aborts_witness :
    ∃ e, abortHeight e = 0 ∧
      ∀ fuel, driverLoop wEnvBad testBlockHeights (fuel + 1) 0 0 initState =
        some (.error e) :=
  C4_crosscheck_mismatch_aborts wEnvBad testBlockHeights 0 0 initState
    (List.replicate 16 7) (by decide) (by decide) (by decide) (by decide) (by decide)

/-- Every interesting height in a table is bounded by the table's
maximum. -/
theorem mem_le_maxCaseHeight (l : List TestBlockCase) :
    ∀ c ∈ l, c.height ≤ maxCaseHeight l := by
  induction l with
  | nil => intro c hc; cases hc
  | cons a l ih =>
    intro c hc
    rcases List.mem_cons.mp hc with rfl | hc
    · exact le_max_left _ _
    · exact le_trans (ih c hc) (le_max_right _ _)

/-- A successful fold of the inner loop leaves every slot off the index
list untouched. -/
theorem foldlM_files_frame (env : Env) (c : TestBlockCase) (height : Nat) :
    ∀ (l : List Nat) (st st' : DriverState),
      List.foldlM (fun s i => processP env c height s i) st l = .ok st' →
      ∀ q, q ∉ l →
        st'.files q = st.files q ∧
        st'.prevBasicHeaders q = st.prevBasicHeaders q ∧
        st'.prevExtHeaders q = st.prevExtHeaders q := by
  intro l
  induction l with
  | nil =>
    intro st st' h q _
    have : st = st' := Except.ok.inj h
    subst this
    exact ⟨rfl, rfl, rfl⟩
  | cons j l ih =>
    intro st st' h q hq
    rw [List.foldlM_cons] at h
    cases hj : processP env c height st j with
    | error e => rw [hj] at h; exact Except.noConfusion h
    | ok st2 =>
      rw [hj] at h
      have h2 : List.foldlM (fun s i => processP env c height s i) st2 l = .ok st' := h
      obtain ⟨bf, ef, _, _, hst2, _⟩ := processP_ok_destruct hj
      subst hst2
      have hqj : q ≠ j := fun he => hq (by simp [he])
      obtain ⟨i1, i2, i3⟩ := ih _ st' h2 q (fun hm => hq (by simp [hm]))
      refine ⟨?_, ?_, ?_⟩
      · rw [i1]; exact (applySlot_ne st j q hqj _).2.2
      · rw [i2]; exact (applySlot_ne st j q hqj _).1
      · rw [i3]; exact (applySlot_ne st j q hqj _).2.1

/-- A successful fold of the inner loop over duplicate-free indices appends
exactly one row (carrying the current height) to each listed slot when the
height is interesting, and nothing otherwise. -/
theorem foldlM_files_emit (env : Env) (c : TestBlockCase) (height : Nat) :
    ∀ (l : List Nat), l.Nodup → ∀ (st st' : DriverState),
      List.foldlM (fun s i => processP env c height s i) st l = .ok st' →
      ∀ i ∈ l,
        (height = c.height →
          ∃ r, st'.files i = st.files i ++ [r] ∧ r.height = height) ∧
        (height ≠ c.height → st'.files i = st.files i) := by
  intro l
  induction l with
  | nil => intro _ st st' _ i hi; cases hi
  | cons j l ih =>
    intro hnd st st' h i hi
    rw [List.foldlM_cons] at h
    cases hj : processP env c height st j with
    | error e => rw [hj] at h; exact Except.noConfusion h
    | ok st2 =>
      rw [hj] at h
      have h2 : List.foldlM (fun s i => processP env c height s i) st2 l = .ok st' := h
      obtain ⟨bf, ef, _, _, hst2, _⟩ := processP_ok_destruct hj
      subst hst2
      rcases List.mem_cons.mp hi with rfl | hil
      · have hjl : i ∉ l := (List.nodup_cons.mp hnd).1
        obtain ⟨hfr, _, _⟩ := foldlM_files_frame env c height l _ st' h2 i hjl
        constructor
        · intro hh
          refine ⟨rowOf env c height (st.prevBasicHeaders i) (st.prevExtHeaders i) bf ef,
            ?_, rfl⟩
          rw [hfr]
          simp [applySlot, hh]
        · intro hh
          rw [hfr]
          simp [applySlot, hh]
      · have hij : i ≠ j := by
          intro he
          exact (List.nodup_cons.mp hnd).1 (he ▸ hil)
        have := ih (List.nodup_cons.mp hnd).2 _ st' h2 i hil
        rw [(applySlot_ne st j i hij _).2.2] at this
        exact this

/-- One full height of the driver appends exactly one row per slot 1..32
when the height is the pending interesting one, and nothing otherwise. -/
theorem processHeight_emit {env : Env} {c : TestBlockCase} {height : Nat}
    {st st2 : DriverState} (h : processHeight env c height st = .ok st2) :
    ∀ i, 1 ≤ i → i ≤ 32 →
      (height = c.height →
        ∃ r, st2.files i = st.files i ++ [r] ∧ r.height = height) ∧
      (height ≠ c.height → st2.files i = st.files i) := by
  intro i h1 h32
  refine foldlM_files_emit env c height (List.range' 1 32) ?_ st st2 h i ?_
  · exact List.nodup_range' _ _
  · exact List.mem_range'_1.mpr ⟨h1, by omega⟩

/-- Unfolding of the height loop when the interesting-height table is
exhausted: the guard fails and the loop returns the state. -/
theorem driverLoop_guard_false {env : Env} {heights : List TestBlockCase}
    {idx height : Nat} {st : DriverState} (hidx : ¬ idx < heights.length) :
    ∀ fuel, driverLoop env heights fuel idx height st = some (.ok st) := by
  intro fuel
  cases fuel with
  | zero => simp [driverLoop, hidx]
  | succ fuel => simp [driverLoop, hidx]

/-- Unfolding of the height loop with exhausted fuel while the guard is
still true: the embedding reports `none`. -/
theorem driverLoop_zero_guard_true {env : Env} {heights : List TestBlockCase}
    {idx height : Nat} {st : DriverState} (hidx : idx < heights.length) :
    driverLoop env heights 0 idx height st = none := by
  simp [driverLoop, hidx]

/-- Unfolding of one successful height-loop step. -/
theorem driverLoop_succ_ok {env : Env} {heights : List TestBlockCase}
    {idx height : Nat} {st st2 : DriverState} (hidx : idx < heights.length)
    (hph : processHeight env (heights.get ⟨idx, hidx⟩) height st = .ok st2)
    (fuel : Nat) :
    driverLoop env heights (fuel + 1) idx height st =
      driverLoop env heights fuel
        (if height = (heights.get ⟨idx, hidx⟩).height then idx + 1 else idx)
        (height + 1) st2 := by
  simp only [driverLoop]
  rw [dif_pos hidx, hph]

/-- Unfolding of one aborting height-loop step. -/
theorem driverLoop_succ_err {env : Env} {heights : List TestBlockCase}
    {idx height : Nat} {st : DriverState} {e : Abort} (hidx : idx < heights.length)
    (hph : processHeight env (heights.get ⟨idx, hidx⟩) height st = .error e)
    (fuel : Nat) :
    driverLoop env heights (fuel + 1) idx height st = some (.error e) := by
  simp only [driverLoop]
  rw [dif_pos hidx, hph]

/-- The height loop with fuel reaching one past the largest interesting
height always resolves (terminates cleanly or aborts); on a clean
completion each slot 1..32 has gained exactly one row per remaining
interesting height, in table order. -/
theorem driverLoop_run (env : Env) (heights : List TestBlockCase)
    (hsort : List.Pairwise (fun a b => a.height < b.height) heights) :
    ∀ (fuel idx height : Nat) (st : DriverState),
      (∀ k (hk : k < heights.length), idx ≤ k →
        height ≤ (heights.get ⟨k, hk⟩).height) →
      maxCaseHeight heights + 1 ≤ fuel + height →
      (driverLoop env heights fuel idx height st).isSome = true ∧
      (∀ st', driverLoop env heights fuel idx height st = some (.ok st') →
        ∀ i, 1 ≤ i → i ≤ 32 →
          (st'.files i).map (fun r => r.height) =
            (st.files i).map (fun r => r.height) ++
              (heights.drop idx).map (fun tc => tc.height)) := by
  intro fuel
  induction fuel with
  | zero =>
    intro idx height st hge hfuel
    by_cases hidx : idx < heights.length
    · exfalso
      have hb1 := hge idx hidx le_rfl
      have hb2 := mem_le_maxCaseHeight heights _ (heights.get_mem idx hidx)
      omega
    · refine ⟨by rw [driverLoop_guard_false hidx]; rfl, ?_⟩
      intro st' hst' i _ _
      rw [driverLoop_guard_false hidx] at hst'
      have hss : st = st' := Except.ok.inj (Option.some.inj hst')
      subst hss
      rw [List.drop_eq_nil_of_le (by omega)]
      simp
  | succ fuel ih =>
    intro idx height st hge hfuel
    by_cases hidx : idx < heights.length
    · cases hph : processHeight env (heights.get ⟨idx, hidx⟩) height st with
      | error e =>
        refine ⟨by rw [driverLoop_succ_err hidx hph]; rfl, ?_⟩
        intro st' hst'
        rw [driverLoop_succ_err hidx hph] at hst'
        exact absurd (Option.some.inj hst') (by simp)
      | ok st2 =>
        rw [driverLoop_succ_ok hidx hph]
        by_cases hmatch : height = (heights.get ⟨idx, hidx⟩).height
        · rw [if_pos hmatch]
          have hge' : ∀ k (hk : k < heights.length), idx + 1 ≤ k →
              height + 1 ≤ (heights.get ⟨k, hk⟩).height := by
            intro k hk hik
            have hlt : (heights.get ⟨idx, hidx⟩).height <
                (heights.get ⟨k, hk⟩).height :=
              List.pairwise_iff_get.mp hsort ⟨idx, hidx⟩ ⟨k, hk⟩
                (Fin.mk_lt_mk.mpr (by omega))
            omega
          obtain ⟨hsome, hfiles⟩ := ih (idx + 1) (height + 1) st2 hge' (by omega)
          refine ⟨hsome, ?_⟩
          intro st' hst' i h1 h32
          have hrec := hfiles st' hst' i h1 h32
          obtain ⟨r, hr, hrh⟩ := (processHeight_emit hph i h1 h32).1 hmatch
          rw [hrec, hr, List.drop_eq_get_cons hidx]
          simp only [List.map_append, List.map_cons, List.map_nil]
          rw [List.append_assoc]
          have hgm : height = heights[idx].height := by simpa using hmatch
          simp [hrh, ← hgm]
        · rw [if_neg hmatch]
          have hge' : ∀ k (hk : k < heights.length), idx ≤ k →
              height + 1 ≤ (heights.get ⟨k, hk⟩).height := by
            intro k hk hik
            rcases Nat.eq_or_lt_of_le hik with heq | hlt
            · have hbe := hge k hk (le_of_eq heq)
              have hne : height ≠ (heights.get ⟨k, hk⟩).height := by
                cases heq
                exact hmatch
              omega
            · have hlt2 : (heights.get ⟨idx, hidx⟩).height <
                  (heights.get ⟨k, hk⟩).height :=
                List.pairwise_iff_get.mp hsort ⟨idx, hidx⟩ ⟨k, hk⟩
                  (Fin.mk_lt_mk.mpr hlt)
              have hbe := hge idx hidx le_rfl
              omega
          obtain ⟨hsome, hfiles⟩ := ih idx (height + 1) st2 hge' (by omega)
          refine ⟨hsome, ?_⟩
          intro st' hst' i h1 h32
          have hrec := hfiles st' hst' i h1 h32
          have hkeep := (processHeight_emit hph i h1 h32).2 hmatch
          rw [hrec, hkeep]
    · refine ⟨by rw [driverLoop_guard_false hidx]; rfl, ?_⟩
      intro st' hst' i _ _
      rw [driverLoop_guard_false hidx] at hst'
      have hss : st = st' := Except.ok.inj (Option.some.inj hst')
      subst hss
      rw [List.drop_eq_nil_of_le (by omega)]
      simp

/-- Claim C7: the generator is the height loop from 0 over the sorted
strictly-increasing interesting-heights table (which the concrete table
is); one height emits a row to every slot 1..32 exactly when the height
equals the pending table entry; with fuel one past the largest entry the
loop always resolves — it terminates once every interesting height has been
emitted (each file then lists exactly the interesting heights, in order)
unless an abort cut it short. -/
theorem C7_driver_iteration_and_termination :
    List.Pairwise (fun a b => a.height < b.height) testBlockHeights ∧
    (∀ env fuel, genTestVectors env fuel =
      driverLoop env testBlockHeights fuel 0 0 initState) ∧
    (∀ (env : Env) (heights : List TestBlockCase),
      List.Pairwise (fun a b => a.height < b.height) heights →
      (driverLoop env heights (maxCaseHeight heights + 1) 0 0 initState).isSome
          = true ∧
      (∀ st', driverLoop env heights (maxCaseHeight heights + 1) 0 0 initState =
          some (.ok st') →
        ∀ i, 1 ≤ i → i ≤ 32 →
          (st'.files i).map (fun r => r.height) =
            heights.map (fun tc => tc.height)) ∧
      (∀ (c : TestBlockCase) (height : Nat) (st st2 : DriverState),
        processHeight env c height st = .ok st2 → ∀ i, 1 ≤ i → i ≤ 32 →
          (height = c.height →
            ∃ r, st2.files i = st.files i ++ [r] ∧ r.height = height) ∧
          (height ≠ c.height → st2.files i = st.files i))) := by
  refine ⟨by decide, fun env fuel => rfl, ?_⟩
  intro env heights hsort
  obtain ⟨hsome, hfiles⟩ := driverLoop_run env heights hsort
    (maxCaseHeight heights + 1) 0 0 initState
    (fun k hk _ => Nat.zero_le _) (by omega)
  refine ⟨hsome, ?_, ?_⟩
  · intro st' hst' i h1 h32
    have := hfiles st' hst' i h1 h32
    simpa [initState] using this
  · intro c height st st2 hph i h1 h32
    exact processHeight_emit hph i h1 h32

/-- Claim C7 witness: on a concrete two-entry table with interesting
heights 0 and 2, the run with fuel 3 resolves and file 1 lists exactly
those heights. -/
theorem C7_driver_iteration_and_termination_witness :
    List.Pairwise (fun a b => a.height < b.height) wHeights ∧
    (driverLoop wEnv wHeights (maxCaseHeight wHeights + 1) 0 0 initState).isSome
        = true ∧
    ((valueOf (driverLoop wEnv wHeights (maxCaseHeight wHeights + 1) 0 0
        initState)).files 1).map (fun r => r.height) =
      wHeights.map (fun tc => tc.height) :=
  ⟨by decide,
   (C7_driver_iteration_and_termination.2.2 wEnv wHeights (by decide)).1,
   (C7_driver_iteration_and_termination.2.2 wEnv wHeights (by decide)).2.1
     (valueOf (driverLoop wEnv wHeights (maxCaseHeight wHeights + 1) 0 0 initState))
     rfl 1 (by decide) (by decide)⟩

/-- Claim C2 witness: the extended-set shape and the coinbase-input
exemption instantiated at a concrete block and a concrete replacement input
list. -/
theorem C2_extended_set_and_coinbase_inputs_witness :
    extElements divergenceBlock =
      divergenceBlock.transactions.tail.flatMap
        (fun tx => tx.txIn.flatMap extInputElements) ∧
    extElements (setCoinbaseInputs divergenceBlock
        [{ previousOutPoint := { hash := List.replicate 32 4, index := 5 },
           signatureScript := some [2, 9, 9], witness := [[3]] }]) =
      extElements divergenceBlock :=
  ⟨C2_extended_set_and_coinbase_inputs.1 divergenceBlock,
   C2_extended_set_and_coinbase_inputs.2.2 divergenceBlock
     [{ previousOutPoint := { hash := List.replicate 32 4, index := 5 },
        signatureScript := some [2, 9, 9], witness := [[3]] }]⟩

/-- Claim C9 witness: the slot factorization and the slot-0 commutation
instantiated at a concrete environment, state and slot. -/
theorem C9_per_slot_isolation_witness :
    processP wEnv wCase0 0 initState 3 =
      Except.map (applySlot initState 3)
        (processPSlot wEnv wCase0 0 (slotOf initState 3) 3) ∧
    processHeight wEnv wCase0 0 (setSlot0 initState ([9], [9], [])) =
      Except.map (fun st2 => setSlot0 st2 ([9], [9], []))
        (processHeight wEnv wCase0 0 initState) :=
  ⟨C9_per_slot_isolation.1 wEnv wCase0 0 initState 3,
   C9_per_slot_isolation.2 wEnv wCase0 0 initState ([9], [9], [])⟩
